import Mathlib


/-!
Verification of the devtools proxy and session manager subsystem.

The development shallowly embeds the TypeScript source of the reverse
proxy (port-retry loop), the HTML response interceptor (content-type
dispatch, decompression dispatch, fail-open paths, CSP header rewriting),
the DevtoolsSession status state machine, and the ReactDevtoolsManager
session registry.  External libraries (zlib, parse5, the embedded
devtools backend) are modelled as oracle parameters; everything the
repository itself computes is translated directly.

Strings are modelled as `List Char`.  JavaScript regular-expression
calls are translated to explicit leftmost-match scanning functions that
mirror the exact patterns used in the source.
-/

/-! ## Basic string machinery (List Char) -/

/-- Boolean test that `pat` is a leading segment of `s`. -/

def hasPrefixL : List Char → List Char → Bool
  | [], _ => true
  | _ :: _, [] => false
  | p :: ps, c :: cs => if p = c then hasPrefixL ps cs else false

/-- Leftmost occurrence of `pat` in `s`: returns the part before the
occurrence and the part after it. -/

def splitFirst (pat : List Char) : List Char → Option (List Char × List Char)
  | [] => if hasPrefixL pat [] then some ([], []) else none
  | c :: rest =>
    if hasPrefixL pat (c :: rest) then some ([], (c :: rest).drop pat.length)
    else
      match splitFirst pat rest with
      | some (a, b) => some (c :: a, b)
      | none => none

/-- Substring test, mirroring `String.prototype.includes` and a
regular-expression test against a literal pattern. -/

def hasSub (pat s : List Char) : Bool := (splitFirst pat s).isSome

/-- Number of positions of `s` at which `pat` matches. -/

def countSub (pat : List Char) : List Char → Nat
  | [] => 0
  | c :: rest => (if hasPrefixL pat (c :: rest) then 1 else 0) + countSub pat rest

/-- Proposition: `pat` occurs somewhere in `s`. -/

def InfixP (pat s : List Char) : Prop := ∃ x y, s = x ++ pat ++ y

/-- Greedy run of non-semicolon characters (the `[^;]*` / `[^;]+` regex
atoms used by the CSP rewriting). -/

def takeNonSemi : List Char → List Char
  | [] => []
  | c :: rest => if c = ';' then [] else c :: takeNonSemi rest

/-- Remainder after the greedy non-semicolon run. -/

def dropNonSemi : List Char → List Char
  | [] => []
  | c :: rest => if c = ';' then c :: rest else dropNonSemi rest

/-- Whether a list starts with a non-semicolon character (so the `[^;]+`
atom can consume at least one character). -/

def headNonSemi : List Char → Bool
  | [] => false
  | c :: _ => if c = ';' then false else true

/-- Consume `[^;]*` and then the `(;|$)` alternative: everything up to
and including the first semicolon, or the whole list. -/

def dropDirectiveTail : List Char → List Char
  | [] => []
  | c :: rest => if c = ';' then rest else dropDirectiveTail rest

/-! ## CSP header rewriting (startInterceptingDocument, lines 157-202, and
extractNonce, lines 215-226 of the proxy source)

The apostrophe and space characters are written via `Char.ofNat` so the
token lists can be assembled explicitly. -/

/-- Apostrophe character. -/

def qc : Char := Char.ofNat 39

/-- Space character. -/

def spc : Char := Char.ofNat 32

/-- The literal `frame-ancestors`. -/

def faLit : List Char := "frame-ancestors".data

/-- The literal `script-src`. -/

def ssLit : List Char := "script-src".data

/-- The literal `default-src`. -/

def dsLit : List Char := "default-src".data

/-- The quoted token `unsafe-inline` (with apostrophes). -/

def tokenInline : List Char := [qc] ++ "unsafe-inline".data ++ [qc]

/-- The quoted token `unsafe-eval` (with apostrophes). -/

def tokenEval : List Char := [qc] ++ "unsafe-eval".data ++ [qc]

/-- The replacement suffix appended by `$1 'unsafe-inline' 'unsafe-eval'`:
a space, the quoted inline token, a space, the quoted eval token. -/

def relaxTokens : List Char := [spc] ++ tokenInline ++ [spc] ++ tokenEval

/-- `cspHeader.replace(/frame-ancestors[^;]*(;|$)/, '')`: delete from the
leftmost occurrence of the literal through the next semicolon (inclusive)
or the end of the string; no match leaves the header unchanged. -/

def replaceFA (s : List Char) : List Char :=
  match splitFirst faLit s with
  | some (a, b) => a ++ dropDirectiveTail b
  | none => s

/-- `cspHeader.replace(/(lit[^;]+)/, "$1" + relaxTokens)`: find the
leftmost position where the literal is followed by at least one
non-semicolon character, and append the relax tokens after the greedy
non-semicolon run.  Returns `none` when the pattern never matches. -/

def tryMatchDir (lit : List Char) : List Char → Option (List Char)
  | [] => none
  | c :: rest =>
    if hasPrefixL lit (c :: rest) && headNonSemi ((c :: rest).drop lit.length) then
      some (lit ++ takeNonSemi ((c :: rest).drop lit.length) ++ relaxTokens ++
        dropNonSemi ((c :: rest).drop lit.length))
    else
      match tryMatchDir lit rest with
      | some t => some (c :: t)
      | none => none

/-- Lines 185-199: if `/script-src/.test(cspHeader)` then append the relax
tokens to the first `script-src[^;]+` match, else to the first
`default-src[^;]+` match; a non-matching `.replace` is the identity. -/

def appendRelax (s : List Char) : List Char :=
  if hasSub ssLit s then
    match tryMatchDir ssLit s with
    | some t => t
    | none => s
  else
    match tryMatchDir dsLit s with
    | some t => t
    | none => s

/-- The full CSP rewrite applied to a (joined) header value: first the
frame-ancestors removal (lines 177-183), then the unsafe-token
appending (lines 185-199). -/

def rewriteCsp (s : List Char) : List Char := appendRelax (replaceFA s)

/-! ### extractNonce (lines 215-226): the regex
`(?:script-src|default-src)[^;]*'nonce-([^']+)'` with leftmost-match,
alternation-priority and greedy-backtracking semantics. -/

/-- The literal `'nonce-`. -/

def nonceLit : List Char := [qc] ++ "nonce-".data

/-- Greedy run of non-apostrophe characters (the `[^']+` atom). -/

def takeNonQuote : List Char → List Char
  | [] => []
  | c :: rest => if c = qc then [] else c :: takeNonQuote rest

/-- Remainder after the greedy non-apostrophe run. -/

def dropNonQuote : List Char → List Char
  | [] => []
  | c :: rest => if c = qc then c :: rest else dropNonQuote rest

/-- Attempt to match `'nonce-([^']+)'` at the head of `s`, returning the
capture. -/

def nonceAfter (s : List Char) : Option (List Char) :=
  if hasPrefixL nonceLit s then
    let r := s.drop nonceLit.length
    let cap := takeNonQuote r
    if cap.isEmpty || (dropNonQuote r).isEmpty then none else some cap
  else none

/-- Backtracking over the greedy `[^;]*`: try consuming `k` characters
first, then fewer, mirroring the regex engine preference for the longest
prefix run that lets the rest of the pattern match. -/

def searchNonceFrom (s : List Char) : Nat → Option (List Char)
  | 0 => nonceAfter s
  | k + 1 =>
    match nonceAfter (s.drop (k + 1)) with
    | some cap => some cap
    | none => searchNonceFrom s k

/-- Length of the greedy non-semicolon run at the head of `s`. -/

def lenNonSemi (s : List Char) : Nat := (takeNonSemi s).length

/-- Try one alternation branch (`script-src` or `default-src`) at the
current position. -/

def tryDirNonce (lit s : List Char) : Option (List Char) :=
  if hasPrefixL lit s then
    let r := s.drop lit.length
    searchNonceFrom r (lenNonSemi r)
  else none

/-- Scan positions left to right; at each position try `script-src` then
`default-src` (regex alternation order). -/

def extractNonceCore : List Char → Option (List Char)
  | [] => none
  | c :: rest =>
    match tryDirNonce ssLit (c :: rest) with
    | some cap => some cap
    | none =>
      match tryDirNonce dsLit (c :: rest) with
      | some cap => some cap
      | none => extractNonceCore rest

/-- `extractNonce(cspHeader)`: `null` for the empty header (falsy), else
the regex capture or `null`. -/

def extractNonce (s : List Char) : Option (List Char) := extractNonceCore s

/-! ### Directive-level reading of a CSP header, used to state the claims
in the vocabulary of the specification ("contains a ... directive"). -/

/-- Split a header on semicolons (the directive separator). -/

def splitSemis : List Char → List (List Char)
  | [] => [[]]
  | c :: rest =>
    if c = ';' then [] :: splitSemis rest
    else
      match splitSemis rest with
      | [] => [[c]]
      | d :: ds => (c :: d) :: ds

/-- Rejoin directive segments with semicolons. -/

def intercalSemi : List (List Char) → List Char
  | [] => []
  | [d] => d
  | d :: d2 :: ds => d ++ ';' :: intercalSemi (d2 :: ds)

/-- Name of a directive segment: the first space-delimited word after
leading spaces. -/

def dirName (d : List Char) : List Char :=
  (d.dropWhile (fun c => c = spc)).takeWhile (fun c => ¬ c = spc)

/-- Whether the header contains a directive with the given name. -/

def hasDirective (name s : List Char) : Bool :=
  (splitSemis s).any (fun d => dirName d = name)

/-! ## HTML response interceptor (startInterceptingDocument, lines 88-213)

Node delivers the response body as ordered chunks; the handler buffers
them and runs on the `end` event, when the upstream stream is fully
consumed.  zlib and parse5 are external, so decompression and
parse/mutate/serialize are oracle parameters; everything the handler
itself decides (content-type and encoding dispatch, the fail-open
branches, header fixups, CSP rewriting) is translated directly.  On the
fail-open branches the source calls `pipeThrough`, which pipes the
already-ended `proxyRes` stream: no further bytes flow, so the delivered
body is empty. -/

/-- A header value: a string or an array of strings (Node allows both). -/

inductive HVal
  | str (v : List Char)
  | arr (vs : List (List Char))
deriving DecidableEq

/-- Response headers as an insertion-ordered key/value map. -/

abbrev Headers := List (String × HVal)

def getHeader : Headers → String → Option HVal
  | [], _ => none
  | (k, v) :: rest, key => if k = key then some v else getHeader rest key

/-- `headers[key] = v`: overwrite in place, else append. -/

def setHeader : Headers → String → HVal → Headers
  | [], key, v => [(key, v)]
  | (k, w) :: rest, key, v =>
    if k = key then (k, v) :: rest else (k, w) :: setHeader rest key v

/-- `delete headers[key]`. -/

def delHeader : Headers → String → Headers
  | [], _ => []
  | (k, w) :: rest, key =>
    if k = key then delHeader rest key else (k, w) :: delHeader rest key

/-- `headers[key] || ''` restricted to string values (Node normalizes the
headers the handler reads this way to single strings). -/

def headerStrOr (hs : Headers) (key : String) : List Char :=
  match getHeader hs key with
  | some (HVal.str v) => v
  | _ => []

/-- ASCII lowercasing, the fragment of `String.prototype.toLowerCase`
relevant to header token matching. -/

def lowerC (c : Char) : Char :=
  if 'A' ≤ c ∧ c ≤ 'Z' then Char.ofNat (c.toNat + 32) else c

def asciiLower (s : List Char) : List Char := s.map lowerC

/-- `proxyRes.statusCode || 200` (0 and undefined are falsy). -/

def statusOr200 : Option Nat → Nat
  | none => 200
  | some n => if n = 0 then 200 else n

/-- The upstream response as seen by the handler. -/

structure ProxyRes where
  statusCode : Option Nat
  headers : Headers
  chunks : List (List Nat)
deriving DecidableEq

/-- Bytes of the buffered body (`Buffer.concat(bodyChunks)`). -/

def bodyBytes (pr : ProxyRes) : List Nat := pr.chunks.flatten

/-- What the handler writes to the client response. -/

structure RespOut where
  status : Nat
  headers : Headers
  body : List Nat
  logs : List String
deriving DecidableEq

/-- Oracle for the three zlib decompressors. -/

structure Zlib where
  gunzip : List Nat → Except Unit (List Nat)
  inflate : List Nat → Except Unit (List Nat)
  brotli : List Nat → Except Unit (List Nat)

/-- Oracle summary of `parse5.parse` on the decompressed text: either the
document has no `html` element node, or no `head` element under it, or
both exist and `render nonce` is the serialized document after the two
script injections (which depend on the extracted nonce). -/

inductive DocShape
  | noHtml
  | noHead
  | ok (render : Option (List Char) → List Nat)

/-- Join an array-valued CSP header with `'; '` (line 160). -/

def joinSemiSp : List (List Char) → List Char
  | [] => []
  | [v] => v
  | v :: v2 :: vs => v ++ ';' :: spc :: joinSemiSp (v2 :: vs)

/-- The CSP header value after the array-join normalization. -/

def cspOf (hs : Headers) : Option (List Char) :=
  match getHeader hs "content-security-policy" with
  | some (HVal.str v) => some v
  | some (HVal.arr vs) => some (joinSemiSp vs)
  | none => none

/-- The `proxyRes.on('end', ...)` handler. -/

def interceptRes (z : Zlib) (parseDoc : List Nat → DocShape) (pr : ProxyRes) :
    RespOut :=
  let contentType := asciiLower (headerStrOr pr.headers "content-type")
  let raw := pr.chunks.flatten
  if hasSub "text/html".data contentType = false then
    -- not HTML: write original status/headers and the buffered bytes
    ⟨statusOr200 pr.statusCode, pr.headers, raw, []⟩
  else
    let enc := asciiLower (headerStrOr pr.headers "content-encoding")
    let dres :=
      if hasSub "gzip".data enc then z.gunzip raw
      else if hasSub "deflate".data enc then z.inflate raw
      else if hasSub "br".data enc then z.brotli raw
      else Except.ok raw
    match dres with
    | Except.error _ =>
      -- fail open on decompression error: raw bytes, original headers
      ⟨statusOr200 pr.statusCode, pr.headers, raw, ["Decompression error"]⟩
    | Except.ok dec =>
      match parseDoc dec with
      | DocShape.noHtml =>
        -- pipeThrough on the consumed stream: no body bytes flow
        ⟨statusOr200 pr.statusCode, pr.headers, [], ["No html node found"]⟩
      | DocShape.noHead =>
        ⟨statusOr200 pr.statusCode, pr.headers, [], ["No head node found"]⟩
      | DocShape.ok render =>
        let cspJoined := cspOf pr.headers
        let nonce := cspJoined.bind (fun c => extractNonce c)
        let body2 := render nonce
        let headers1 :=
          match cspJoined with
          | some csp =>
            setHeader pr.headers "content-security-policy"
              (HVal.str (rewriteCsp csp))
          | none => pr.headers
        let headers2 :=
          setHeader
            (delHeader (delHeader headers1 "transfer-encoding")
              "content-encoding")
            "content-length" (HVal.str (toString body2.length).data)
        ⟨statusOr200 pr.statusCode, headers2, body2, []⟩

/-! ## Reverse proxy bind-retry loop (proxy / tryListen, lines 234-312)

The operating system's answer to `server.listen(port)` is the oracle
`bind`; the loop itself (initial port 8000, retry condition, counters,
cleanup of the proxy/listener pair before each retry) is translated
directly.  The second component counts `cleanup` invocations. -/

inductive BindOutcome
  | ok
  | err (code : List Char)
deriving DecidableEq

def eaddrinuse : List Char := "EADDRINUSE".data

def maxAttempts : Nat := 10

def tryListen (bind : Nat → BindOutcome) (attempt proxyPort cleanups : Nat) :
    Except (List Char) Nat × Nat :=
  match bind proxyPort with
  | BindOutcome.ok => (Except.ok proxyPort, cleanups)
  | BindOutcome.err code =>
    if h : code = eaddrinuse ∧ attempt < maxAttempts then
      tryListen bind (attempt + 1) (proxyPort + 1) (cleanups + 1)
    else (Except.error code, cleanups + 1)
termination_by maxAttempts - attempt
decreasing_by omega

/-- `proxy(port, reactDevtoolsPort)`: `attempt = 0`, `proxyPort = 8000`. -/

def proxyStart (bind : Nat → BindOutcome) : Except (List Char) Nat × Nat :=
  tryListen bind 0 8000 0

/-! ## DevtoolsSession status machine (updateStatus, lines 393-400, and
onDidDisconnect, lines 407-413)

`updateStatus` stores the new status, and on `ServerConnected` awaits
`_startProxy`; a successful start replaces `_proxyResult` (outcome
`some p`), a failed one throws past the event fire and leaves
`_proxyResult` unchanged (outcome `none`).  The returned list holds the
statuses fired on `_onStatusChange`; the Bool of `onDidDisconnectM`
records whether `_cleanupProxy` ran (it never clears `_proxyResult`). -/

inductive DevtoolsStatus
  | Idle
  | ServerConnected
  | DevtoolsConnected
  | Error
deriving DecidableEq

structure SessState where
  status : DevtoolsStatus
  proxyResult : Option Nat
deriving DecidableEq

def initSessState : SessState := ⟨DevtoolsStatus.Idle, none⟩

def updateStatusM (st : SessState) (s : DevtoolsStatus) (outcome : Option Nat) :
    SessState × List DevtoolsStatus :=
  if s = DevtoolsStatus.ServerConnected then
    match outcome with
    | some p => (⟨s, some p⟩, [s])
    | none => (⟨s, st.proxyResult⟩, [])
  else (⟨s, st.proxyResult⟩, [s])

def onDidDisconnectM (st : SessState) (outcome : Option Nat) :
    SessState × List DevtoolsStatus × Bool :=
  if st.status = DevtoolsStatus.DevtoolsConnected then
    let r := updateStatusM st DevtoolsStatus.ServerConnected outcome
    (r.1, r.2, true)
  else (st, [], false)

/-- Backend-driven events over a session's lifetime: a raw status
callback (with the proxy-start outcome consulted when the new status is
`ServerConnected`), or the disconnected callback (whose outcome is the
proxy restart attempted only from `DevtoolsConnected`). -/

inductive SEvent
  | upd (s : DevtoolsStatus) (outcome : Option Nat)
  | disc (outcome : Option Nat)

def stepS (st : SessState) : SEvent → SessState
  | SEvent.upd s o => (updateStatusM st s o).1
  | SEvent.disc o => (onDidDisconnectM st o).1

def runS (tr : List SEvent) : SessState := tr.foldl stepS initSessState

/-- The events that install a proxy result in state `st`. -/

def setsProxy (st : SessState) : SEvent → Prop
  | SEvent.upd s o => s = DevtoolsStatus.ServerConnected ∧ o.isSome = true
  | SEvent.disc o =>
    st.status = DevtoolsStatus.DevtoolsConnected ∧ o.isSome = true

/-! ## ReactDevtoolsManager registry (startOrGetSession, lines 549-600)

The registry part of `startOrGetSession` (lines 553-568) is synchronous:
look up the target port, else collect the truthy `devtoolsPort` values of
existing sessions, suggest `max + 1` (or leave the constructor default
8097), construct and register.  The waiting part is modelled by
`fireStatus`: the closure subscribed at lines 593-600, driven by status
fires, reading the session's `proxyPort` at fire time; `settled` is the
promise state (first settlement wins) and `disposed` records
`statusListener.dispose()`. -/

structure MSession where
  targetPort : Nat
  suggestedDevtoolsPort : Nat
  devtoolsPort : Option Nat
  status : DevtoolsStatus
  proxyResult : Option Nat
deriving DecidableEq

/-- JavaScript truthiness for an optional number (0 is falsy). -/

def truthyN : Option Nat → Bool
  | none => false
  | some n => if n = 0 then false else true

structure MgrState where
  sessions : List (Nat × MSession)
deriving DecidableEq

def lookupSess : List (Nat × MSession) → Nat → Option MSession
  | [], _ => none
  | (k, s) :: rest, port => if k = port then some s else lookupSess rest port

def insertSess : List (Nat × MSession) → Nat → MSession → List (Nat × MSession)
  | [], port, s => [(port, s)]
  | (k, t) :: rest, port, s =>
    if k = port then (k, s) :: rest else (k, t) :: insertSess rest port s

/-- The truthy backend ports of all registered sessions (the
`activeSessionPorts` collection). -/

def knownDevtoolsPorts (m : MgrState) : List Nat :=
  m.sessions.filterMap (fun kv =>
    match kv.2.devtoolsPort with
    | some n => if n = 0 then none else some n
    | none => none)

def maxList : List Nat → Nat := List.foldr max 0

/-- `Math.max(...activeSessionPorts) + 1` when the set is non-empty,
otherwise `undefined`. -/

def suggestedFor (m : MgrState) : Option Nat :=
  if knownDevtoolsPorts m = [] then none
  else some (maxList (knownDevtoolsPorts m) + 1)

/-- `new DevtoolsSession(port, suggestedDevtoolsPort)`: the constructor
default for the second parameter is 8097; the backend has not yet
reported a port or status change. -/

def newSession (port : Nat) (sug : Option Nat) : MSession :=
  { targetPort := port
    suggestedDevtoolsPort := sug.getD 8097
    devtoolsPort := none
    status := DevtoolsStatus.Idle
    proxyResult := none }

/-- The find-or-create part of `startOrGetSession`. -/

def getOrCreate (m : MgrState) (port : Nat) : MSession × MgrState :=
  match lookupSess m.sessions port with
  | some s => (s, m)
  | none =>
    let s := newSession port (suggestedFor m)
    (s, ⟨insertSess m.sessions port s⟩)

deriving instance DecidableEq for Except

/-- The pending promise plus subscription state of one
`startOrGetSession` wait. -/

structure ListenerSim where
  settled : Option (Except String Nat)
  disposed : Bool
deriving DecidableEq

def listenerInit : ListenerSim := ⟨none, false⟩

/-- `resolve(v)`: only the first settlement takes effect. -/

def settleOk (s : Option (Except String Nat)) (v : Nat) :
    Option (Except String Nat) :=
  match s with
  | none => some (Except.ok v)
  | some x => some x

/-- `reject('Error while starting a new session')`. -/

def settleErr (s : Option (Except String Nat)) : Option (Except String Nat) :=
  match s with
  | none => some (Except.error "Error while starting a new session")
  | some x => some x

/-- The body of the closure at lines 593-600: on `ServerConnected` with a
truthy `session.proxyPort`, dispose then resolve; on `Error`, reject
(without disposing); otherwise do nothing. -/

def statusListenerBody (pp : Option Nat) (status : DevtoolsStatus)
    (L : ListenerSim) : ListenerSim :=
  if status = DevtoolsStatus.ServerConnected ∧ truthyN pp = true then
    ⟨settleOk L.settled (pp.getD 0), true⟩
  else if status = DevtoolsStatus.Error then
    ⟨settleErr L.settled, L.disposed⟩
  else L

/-- A status fire delivered to the subscription: a disposed listener is
no longer invoked. -/

def fireStatus (pp : Option Nat) (status : DevtoolsStatus) (L : ListenerSim) :
    ListenerSim :=
  if L.disposed then L else statusListenerBody pp status L

/-! ## Auxiliary constants for concrete evaluations -/

/-- The code's own HTML test on a response. -/

def isHtmlRes (pr : ProxyRes) : Bool :=
  hasSub "text/html".data (asciiLower (headerStrOr pr.headers "content-type"))

/-- Zlib oracle that fails on every input (never consulted in the
witnesses that use it). -/

def zlibNone : Zlib :=
  ⟨fun _ => Except.error (), fun _ => Except.error (), fun _ => Except.error ()⟩

/-- An HTML response with a non-empty body (`<p>hi` in UTF-8). -/

def c1pr : ProxyRes :=
  { statusCode := some 200
    headers := [("content-type", HVal.str "text/html".data)]
    chunks := [[60, 112, 62, 104, 105]] }

/-- A JSON response used as the non-HTML witness. -/

def c7pr : ProxyRes :=
  { statusCode := some 404
    headers := [("content-type", HVal.str "application/json".data)]
    chunks := [[1, 2], [3]] }

/-- A bind oracle with ports 8000 and 8001 occupied. -/

def c4bind : Nat → BindOutcome :=
  fun p => if p < 8002 then BindOutcome.err eaddrinuse else BindOutcome.ok

/-- Session trace: reach ServerConnected with a proxy on 8000, then an
Error status callback. -/

def c2trace : List SEvent :=
  [SEvent.upd DevtoolsStatus.ServerConnected (some 8000),
   SEvent.upd DevtoolsStatus.Error none]

/-- An existing session for target 3000 whose backend reports port 8097. -/

def c9sess : MSession :=
  { targetPort := 3000
    suggestedDevtoolsPort := 8097
    devtoolsPort := some 8097
    status := DevtoolsStatus.ServerConnected
    proxyResult := some 8000 }

def c9mgr : MgrState := ⟨[(3000, c9sess)]⟩

/-! ## Frame-ancestors and script-src claims -/

/-- Boundary check used by the amended C5: at every position where `pat`
matches, the preceding character (if any) is a semicolon or a space. -/

def prevOK : Option Char → Bool
  | none => true
  | some p => if p = ';' then true else if p = spc then true else false

def goodOccs (pat : List Char) : Option Char → List Char → Bool
  | _, [] => true
  | prev, c :: rest =>
    (if hasPrefixL pat (c :: rest) then prevOK prev else true)
    && goodOccs pat (some c) rest

/-- C5 counterexample: the replace uses a non-global regex, so of two
frame-ancestors directives only the first is removed; the rewritten
header still contains a frame-ancestors directive. -/

def c5cx : List Char := "frame-ancestors a; frame-ancestors b".data

/-- Witness header for C5: a single well-placed frame-ancestors
directive. -/

def c5wit : List Char := "x; frame-ancestors a; y".data

/-- C6 counterexample: a bare `script-src` directive (empty source list)
passes the `/script-src/` test but never matches `script-src[^;]+`, so
the rewritten header gains neither quoted token. -/

def c6cx : List Char := "script-src".data

/-- Witness header for C6: a script-src directive with a source list. -/

def c6wit : List Char := "default-src a; script-src b".data

/-! ## Theorems -/

/-! ### Lemmas about the machinery -/

theorem hasPrefixL_iff : ∀ (pat s : List Char),
    hasPrefixL pat s = true ↔ ∃ t, s = pat ++ t
  | [], s => by simp [hasPrefixL]
  | _ :: _, [] => by simp [hasPrefixL]
  | p :: ps, c :: cs => by
    by_cases hpc : p = c
    · subst hpc
      have hh : hasPrefixL (p :: ps) (p :: cs) = hasPrefixL ps cs := by
        simp [hasPrefixL]
      rw [hh, hasPrefixL_iff ps cs]
      constructor
      · rintro ⟨t, rfl⟩; exact ⟨t, rfl⟩
      · rintro ⟨t, ht⟩
        injection ht with _ h2
        exact ⟨t, h2⟩
    · have hh : hasPrefixL (p :: ps) (c :: cs) = false := by
        simp [hasPrefixL, hpc]
      rw [hh]
      constructor
      · intro h; exact absurd h (by simp)
      · rintro ⟨t, ht⟩
        injection ht with h1 _
        exact absurd h1.symm hpc

theorem hasPrefixL_self_append (pat t : List Char) :
    hasPrefixL pat (pat ++ t) = true :=
  (hasPrefixL_iff pat (pat ++ t)).mpr ⟨t, rfl⟩

theorem eq_of_hasPrefixL {pat s : List Char} (h : hasPrefixL pat s = true) :
    s = pat ++ s.drop pat.length := by
  obtain ⟨t, ht⟩ := (hasPrefixL_iff pat s).mp h
  subst ht
  rw [List.drop_left]

theorem splitFirst_eq {pat s a b : List Char}
    (h : splitFirst pat s = some (a, b)) : s = a ++ pat ++ b := by
  induction s generalizing a b with
  | nil =>
    simp only [splitFirst] at h
    by_cases hp : hasPrefixL pat [] = true
    · rw [if_pos hp] at h
      obtain ⟨t, ht⟩ := (hasPrefixL_iff pat []).mp hp
      rcases List.append_eq_nil.mp ht.symm with ⟨h1, h2⟩
      cases h
      simp [h1]
    · rw [if_neg hp] at h; cases h
  | cons c rest ih =>
    simp only [splitFirst] at h
    by_cases hp : hasPrefixL pat (c :: rest) = true
    · rw [if_pos hp] at h
      cases h
      simpa using eq_of_hasPrefixL hp
    · rw [if_neg hp] at h
      cases hsf : splitFirst pat rest with
      | none => rw [hsf] at h; cases h
      | some ab =>
        obtain ⟨a0, b0⟩ := ab
        rw [hsf] at h
        cases h
        simpa using ih hsf

theorem splitFirst_none {pat s : List Char}
    (h : splitFirst pat s = none) : ¬ InfixP pat s := by
  induction s with
  | nil =>
    simp only [splitFirst] at h
    by_cases hp : hasPrefixL pat [] = true
    · rw [if_pos hp] at h; cases h
    · rintro ⟨x, y, hxy⟩
      have hx := List.append_eq_nil.mp hxy.symm
      have hpat := (List.append_eq_nil.mp hx.1).2
      subst hpat
      exact hp rfl
  | cons c rest ih =>
    simp only [splitFirst] at h
    by_cases hp : hasPrefixL pat (c :: rest) = true
    · rw [if_pos hp] at h; cases h
    · rw [if_neg hp] at h
      cases hsf : splitFirst pat rest with
      | some ab => obtain ⟨a, b⟩ := ab; rw [hsf] at h; cases h
      | none =>
        rintro ⟨x, y, hxy⟩
        cases x with
        | nil =>
          simp only [List.nil_append] at hxy
          exact hp ((hasPrefixL_iff _ _).mpr ⟨y, hxy⟩)
        | cons z zs =>
          have hxy' : c :: rest = z :: (zs ++ pat ++ y) := by simpa using hxy
          injection hxy' with h1 h2
          exact ih hsf ⟨zs, y, h2⟩

theorem splitFirst_isSome {pat s : List Char} (h : InfixP pat s) :
    (splitFirst pat s).isSome = true := by
  cases hsf : splitFirst pat s with
  | some ab => rfl
  | none => exact absurd h (splitFirst_none hsf)

theorem hasSub_iff (pat s : List Char) : hasSub pat s = true ↔ InfixP pat s := by
  constructor
  · intro h
    cases hsf : splitFirst pat s with
    | none => rw [hasSub, hsf] at h; simp at h
    | some ab =>
      obtain ⟨a, b⟩ := ab
      exact ⟨a, b, splitFirst_eq hsf⟩
  · exact fun h => splitFirst_isSome h

theorem InfixP_append_left {pat A : List Char} (B : List Char)
    (h : InfixP pat A) : InfixP pat (A ++ B) := by
  obtain ⟨x, y, hxy⟩ := h
  exact ⟨x, y ++ B, by simp [hxy]⟩

theorem InfixP_append_right (A : List Char) {pat B : List Char}
    (h : InfixP pat B) : InfixP pat (A ++ B) := by
  obtain ⟨x, y, hxy⟩ := h
  exact ⟨A ++ x, y, by simp [hxy]⟩

/-- Decomposition of an occurrence inside a concatenation: it lies in the
left part, in the right part, or straddles the boundary. -/

theorem InfixP_append_split {pat A B : List Char} (h : InfixP pat (A ++ B)) :
    InfixP pat A ∨ InfixP pat B ∨
      ∃ w u, pat = w ++ u ∧ w ≠ [] ∧ u ≠ [] ∧
        (∃ x, A = x ++ w) ∧ (∃ y, B = u ++ y) := by
  obtain ⟨x, y, hxy⟩ := h
  have hx : x ++ (pat ++ y) = A ++ B := by
    rw [hxy, List.append_assoc]
  rcases List.append_eq_append_iff.mp hx with ⟨a', ha1, ha2⟩ | ⟨c', hc1, hc2⟩
  · -- A = x ++ a' and pat ++ y = a' ++ B
    rcases List.append_eq_append_iff.mp ha2 with ⟨p', hp1, hp2⟩ | ⟨u, hu1, hu2⟩
    · -- a' = pat ++ p'
      refine Or.inl ⟨x, p', ?_⟩
      rw [ha1, hp1, List.append_assoc]
    · -- pat = a' ++ u and B = u ++ y
      cases a' with
      | nil =>
        simp only [List.nil_append] at hu1
        refine Or.inr (Or.inl ⟨[], y, ?_⟩)
        rw [hu2, ← hu1]; simp
      | cons z zs =>
        cases u with
        | nil =>
          simp only [List.append_nil] at hu1
          refine Or.inl ⟨x, [], ?_⟩
          rw [ha1, hu1]; simp
        | cons v vs =>
          exact Or.inr (Or.inr ⟨z :: zs, v :: vs, hu1, by simp, by simp,
            ⟨x, ha1⟩, ⟨y, hu2⟩⟩)
  · -- x = A ++ c' and B = c' ++ pat ++ y
    refine Or.inr (Or.inl ⟨c', y, ?_⟩)
    rw [hc2, List.append_assoc]

theorem countSub_ge_of_mem {pat : List Char} (hpat : pat ≠ []) {s : List Char}
    (h : InfixP pat s) : 1 ≤ countSub pat s := by
  obtain ⟨x, y, hxy⟩ := h
  subst hxy
  induction x with
  | nil =>
    cases pat with
    | nil => exact absurd rfl hpat
    | cons p ps =>
      have hp : hasPrefixL (p :: ps) (p :: (ps ++ y)) = true :=
        hasPrefixL_self_append (p :: ps) y
      show 1 ≤ countSub (p :: ps) (p :: (ps ++ y))
      simp only [countSub, hp, if_pos]
      omega
  | cons c x ih =>
    show 1 ≤ countSub pat (c :: (x ++ pat ++ y))
    by_cases hb : hasPrefixL pat (c :: (x ++ pat ++ y)) = true <;>
      simp only [countSub, hb, if_pos, if_neg, Bool.not_eq_true] <;>
      omega

theorem countSub_append_le (pat a b : List Char) :
    countSub pat b ≤ countSub pat (a ++ b) := by
  induction a with
  | nil => simp
  | cons c a ih =>
    show countSub pat b ≤ countSub pat (c :: (a ++ b))
    by_cases hb : hasPrefixL pat (c :: (a ++ b)) = true <;>
      simp only [countSub, hb, if_pos, if_neg, Bool.not_eq_true] <;>
      omega

theorem countSub_middle {pat : List Char} (hpat : pat ≠ []) (a b : List Char) :
    1 + countSub pat b ≤ countSub pat (a ++ pat ++ b) := by
  induction a with
  | nil =>
    cases pat with
    | nil => exact absurd rfl hpat
    | cons p ps =>
      have hp : hasPrefixL (p :: ps) (p :: (ps ++ b)) = true :=
        hasPrefixL_self_append (p :: ps) b
      have hle : countSub (p :: ps) b ≤ countSub (p :: ps) (ps ++ b) :=
        countSub_append_le _ _ _
      show 1 + countSub (p :: ps) b ≤ countSub (p :: ps) (p :: (ps ++ b))
      simp only [countSub, hp, if_pos]
      omega
  | cons c a ih =>
    show 1 + countSub pat b ≤ countSub pat (c :: (a ++ pat ++ b))
    by_cases hb : hasPrefixL pat (c :: (a ++ pat ++ b)) = true <;>
      simp only [countSub, hb, if_pos, if_neg, Bool.not_eq_true] <;>
      omega

/-- Minimality of `splitFirst`: there is no occurrence strictly inside the
prefix it returns. -/

theorem splitFirst_minimal {pat s a b : List Char} (hpat : pat ≠ [])
    (h : splitFirst pat s = some (a, b)) : ¬ InfixP pat a := by
  induction s generalizing a b with
  | nil =>
    simp only [splitFirst] at h
    by_cases hp : hasPrefixL pat [] = true
    · rw [if_pos hp] at h; cases h
      rintro ⟨x, y, hxy⟩
      exact hpat (List.append_eq_nil.mp (List.append_eq_nil.mp hxy.symm).1).2
    · rw [if_neg hp] at h; cases h
  | cons c rest ih =>
    simp only [splitFirst] at h
    by_cases hp : hasPrefixL pat (c :: rest) = true
    · rw [if_pos hp] at h; cases h
      rintro ⟨x, y, hxy⟩
      exact hpat (List.append_eq_nil.mp (List.append_eq_nil.mp hxy.symm).1).2
    · rw [if_neg hp] at h
      cases hsf : splitFirst pat rest with
      | none => rw [hsf] at h; cases h
      | some ab =>
        obtain ⟨a0, b0⟩ := ab
        rw [hsf] at h
        injection h with hpair
        injection hpair with ha hb
        subst ha
        subst hb
        rintro ⟨x, y, hxy⟩
        cases x with
        | nil =>
          simp only [List.nil_append] at hxy
          have hrest : rest = a0 ++ pat ++ b0 := splitFirst_eq hsf
          have : c :: rest = pat ++ (y ++ (pat ++ b0)) := by
            rw [hrest]
            have h2 : c :: (a0 ++ pat ++ b0) = (c :: a0) ++ pat ++ b0 := by simp
            rw [h2, hxy]
            simp [List.append_assoc]
          exact hp ((hasPrefixL_iff _ _).mpr ⟨_, this⟩)
        | cons z zs =>
          have hxy' : c :: a0 = z :: (zs ++ pat ++ y) := by simpa using hxy
          injection hxy' with h1 h2
          exact ih hsf ⟨zs, y, h2⟩

theorem takeNonSemi_append_dropNonSemi (s : List Char) :
    takeNonSemi s ++ dropNonSemi s = s := by
  induction s with
  | nil => rfl
  | cons c rest ih =>
    by_cases hc : c = ';'
    · simp [takeNonSemi, dropNonSemi, hc]
    · simp [takeNonSemi, dropNonSemi, hc, ih]

theorem not_semi_mem_takeNonSemi (s : List Char) : ';' ∉ takeNonSemi s := by
  induction s with
  | nil => simp [takeNonSemi]
  | cons c rest ih =>
    by_cases hc : c = ';'
    · simp [takeNonSemi, hc]
    · simp only [takeNonSemi, if_neg hc, List.mem_cons]
      rintro (h | h)
      · exact hc h.symm
      · exact ih h

theorem dropDirectiveTail_suffix (b : List Char) :
    ∃ pre, b = pre ++ dropDirectiveTail b := by
  induction b with
  | nil => exact ⟨[], rfl⟩
  | cons c rest ih =>
    by_cases hc : c = ';'
    · exact ⟨[c], by simp [dropDirectiveTail, hc]⟩
    · obtain ⟨pre, hpre⟩ := ih
      refine ⟨c :: pre, ?_⟩
      simp only [dropDirectiveTail, if_neg hc, List.cons_append]
      rw [← hpre]

theorem splitSemis_ne_nil (s : List Char) : splitSemis s ≠ [] := by
  cases s with
  | nil => simp [splitSemis]
  | cons c rest =>
    by_cases hc : c = ';'
    · simp [splitSemis, hc]
    · simp only [splitSemis, if_neg hc]
      cases splitSemis rest <;> simp

theorem intercalSemi_splitSemis (s : List Char) :
    intercalSemi (splitSemis s) = s := by
  induction s with
  | nil => rfl
  | cons c rest ih =>
    by_cases hc : c = ';'
    · subst hc
      simp only [splitSemis, if_pos rfl]
      cases hs : splitSemis rest with
      | nil => exact absurd hs (splitSemis_ne_nil rest)
      | cons d ds =>
        rw [hs] at ih
        simp only [intercalSemi, List.nil_append]
        rw [ih]
    · simp only [splitSemis, if_neg hc]
      cases hs : splitSemis rest with
      | nil => exact absurd hs (splitSemis_ne_nil rest)
      | cons d ds =>
        rw [hs] at ih
        cases ds with
        | nil => simp only [intercalSemi]; rw [show intercalSemi [d] = d from rfl] at ih; rw [ih]
        | cons d2 ds2 =>
          simp only [intercalSemi, List.cons_append] at ih ⊢
          rw [ih]

theorem mem_intercalSemi_infix {d : List Char} :
    ∀ {ds : List (List Char)}, d ∈ ds → InfixP d (intercalSemi ds)
  | [], h => absurd h (by simp)
  | [d0], h => by
    have hd : d = d0 := by simpa using h
    exact ⟨[], [], by simp [intercalSemi, hd]⟩
  | d0 :: d2 :: ds, h => by
    rcases List.mem_cons.mp h with rfl | h2
    · exact ⟨[], ';' :: intercalSemi (d2 :: ds), by simp [intercalSemi]⟩
    · have := mem_intercalSemi_infix h2
      obtain ⟨x, y, hxy⟩ := this
      exact ⟨d0 ++ ';' :: x, y, by simp [intercalSemi, hxy]⟩

theorem dirName_infix (d : List Char) : InfixP (dirName d) d := by
  refine ⟨d.takeWhile (fun c => c = spc),
    (d.dropWhile (fun c => c = spc)).dropWhile (fun c => ¬ c = spc), ?_⟩
  unfold dirName
  rw [List.append_assoc, List.takeWhile_append_dropWhile,
    List.takeWhile_append_dropWhile]

theorem InfixP_trans {a b c : List Char} (h1 : InfixP a b) (h2 : InfixP b c) :
    InfixP a c := by
  obtain ⟨x1, y1, hb⟩ := h1
  obtain ⟨x2, y2, hc⟩ := h2
  exact ⟨x2 ++ x1, y1 ++ y2, by rw [hc, hb]; simp [List.append_assoc]⟩

/-- A directive with a given name can only exist where the name occurs as
a substring of the header. -/

theorem hasDirective_imp_hasSub {name s : List Char}
    (h : hasDirective name s = true) : hasSub name s = true := by
  rw [hasSub_iff]
  obtain ⟨d, hd, hname⟩ := List.any_eq_true.mp h
  have h1 : InfixP (dirName d) d := dirName_infix d
  have h2 : InfixP d s := by
    have := mem_intercalSemi_infix hd
    rwa [intercalSemi_splitSemis] at this
  have := InfixP_trans h1 h2
  rwa [show dirName d = name from by simpa using hname] at this

/-! ## Proxy retry: step and skip lemmas -/

theorem tryListen_ok {bind : Nat → BindOutcome} {a p c : Nat}
    (h : bind p = BindOutcome.ok) :
    tryListen bind a p c = (Except.ok p, c) := by
  rw [tryListen, h]

theorem tryListen_busy {bind : Nat → BindOutcome} {a p c : Nat}
    (h : bind p = BindOutcome.err eaddrinuse) (ha : a < maxAttempts) :
    tryListen bind a p c = tryListen bind (a + 1) (p + 1) (c + 1) := by
  rw [tryListen, h]
  exact dif_pos ⟨rfl, ha⟩

theorem tryListen_fail {bind : Nat → BindOutcome} {a p c : Nat} {code : List Char}
    (h : bind p = BindOutcome.err code)
    (hcond : ¬ (code = eaddrinuse ∧ a < maxAttempts)) :
    tryListen bind a p c = (Except.error code, c + 1) := by
  rw [tryListen, h]
  exact dif_neg hcond

theorem tryListen_skip {bind : Nat → BindOutcome} :
    ∀ (k a p c : Nat), a + k ≤ maxAttempts →
      (∀ j, j < k → bind (p + j) = BindOutcome.err eaddrinuse) →
      tryListen bind a p c = tryListen bind (a + k) (p + k) (c + k)
  | 0, a, p, c, _, _ => by simp
  | k + 1, a, p, c, hk, hbusy => by
    have h0 : bind p = BindOutcome.err eaddrinuse := by
      simpa using hbusy 0 (by omega)
    rw [tryListen_busy h0 (by omega)]
    have hrec := tryListen_skip k (a + 1) (p + 1) (c + 1) (by omega)
      (fun j hj => by
        have := hbusy (j + 1) (by omega)
        simpa [Nat.add_assoc, Nat.add_comm, Nat.add_left_comm] using this)
    rw [hrec]
    congr 1 <;> omega

/-- C4: startProxy first tries port 8000; each EADDRINUSE failure cleans
up the current proxy/listener pair and retries on the next port, with the
retry budget maxAttempts = 10; when the budget is exhausted, or a
non-EADDRINUSE bind error occurs, the promise rejects with the underlying
bind error.  The second component counts cleanup invocations (one per
failed bind). -/

theorem C4_portRetry (bind : Nat → BindOutcome) :
    (∀ k, k ≤ maxAttempts →
      (∀ j, j < k → bind (8000 + j) = BindOutcome.err eaddrinuse) →
      bind (8000 + k) = BindOutcome.ok →
      proxyStart bind = (Except.ok (8000 + k), k)) ∧
    (∀ k code, k ≤ maxAttempts →
      (∀ j, j < k → bind (8000 + j) = BindOutcome.err eaddrinuse) →
      code ≠ eaddrinuse → bind (8000 + k) = BindOutcome.err code →
      proxyStart bind = (Except.error code, k + 1)) ∧
    ((∀ j, j ≤ maxAttempts → bind (8000 + j) = BindOutcome.err eaddrinuse) →
      proxyStart bind = (Except.error eaddrinuse, maxAttempts + 1)) := by
  refine ⟨?_, ?_, ?_⟩
  · intro k hk hbusy hok
    unfold proxyStart
    rw [tryListen_skip k 0 8000 0 (by omega) hbusy]
    simp only [Nat.zero_add]
    exact tryListen_ok hok
  · intro k code hk hbusy hcode herr
    unfold proxyStart
    rw [tryListen_skip k 0 8000 0 (by omega) hbusy]
    simp only [Nat.zero_add]
    exact tryListen_fail herr (fun hc => hcode hc.1)
  · intro hbusy
    unfold proxyStart
    rw [tryListen_skip maxAttempts 0 8000 0 (by omega)
      (fun j hj => hbusy j (Nat.le_of_lt hj))]
    simp only [Nat.zero_add]
    exact tryListen_fail (hbusy maxAttempts (Nat.le_refl _))
      (fun hc => Nat.lt_irrefl _ hc.2)

/-- Witness for C4 at a concrete bind oracle: ports 8000 and 8001 busy,
success on 8002 after two cleanups. -/

theorem C4_witness : proxyStart c4bind = (Except.ok (8000 + 2), 2) :=
  (C4_portRetry c4bind).1 2 (by decide) (by decide) (by decide)

/-- C7: a response whose content-type is not HTML passes through with the
buffered body bytes, the original headers unchanged, the original status
(`statusCode || 200`), and nothing logged; the parse and decompression
oracles are unused (the equation's right side does not mention them). -/

theorem C7_nonHtmlPassThrough (z : Zlib) (parseDoc : List Nat → DocShape)
    (pr : ProxyRes) (h : isHtmlRes pr = false) :
    interceptRes z parseDoc pr =
      ⟨statusOr200 pr.statusCode, pr.headers, bodyBytes pr, []⟩ ∧
    (∀ c, pr.statusCode = some c → c ≠ 0 →
      (interceptRes z parseDoc pr).status = c) := by
  have hmain : interceptRes z parseDoc pr =
      ⟨statusOr200 pr.statusCode, pr.headers, bodyBytes pr, []⟩ := by
    simp only [interceptRes]
    rw [show hasSub "text/html".data
        (asciiLower (headerStrOr pr.headers "content-type")) = false from h]
    rfl
  refine ⟨hmain, ?_⟩
  intro c hc hc0
  rw [hmain, hc]
  simp [statusOr200, hc0]

/-- Witness for C7 at a concrete JSON response. -/

theorem C7_witness :
    isHtmlRes c7pr = false ∧
    (interceptRes zlibNone (fun _ => DocShape.noHtml) c7pr =
      ⟨statusOr200 c7pr.statusCode, c7pr.headers, bodyBytes c7pr, []⟩ ∧
     (∀ c, c7pr.statusCode = some c → c ≠ 0 →
       (interceptRes zlibNone (fun _ => DocShape.noHtml) c7pr).status = c)) :=
  ⟨by decide,
   C7_nonHtmlPassThrough zlibNone (fun _ => DocShape.noHtml) c7pr (by decide)⟩

/-- C1 (code bug): on an HTML response whose parsed document lacks a head
(or html) element, the handler logs the diagnostic and writes the
original status and headers, but `pipeThrough` pipes the already-consumed
upstream stream, so the delivered body is empty rather than the original
non-empty bytes. -/

theorem C1_failOpenDeliversEmptyBody :
    interceptRes zlibNone (fun _ => DocShape.noHead) c1pr =
      ⟨200, c1pr.headers, [], ["No head node found"]⟩ ∧
    interceptRes zlibNone (fun _ => DocShape.noHtml) c1pr =
      ⟨200, c1pr.headers, [], ["No html node found"]⟩ ∧
    bodyBytes c1pr ≠ [] := by
  refine ⟨by decide, by decide, by decide⟩

/-! ## Session registry -/

theorem lookupSess_insertSess (l : List (Nat × MSession)) (port : Nat)
    (s : MSession) : lookupSess (insertSess l port s) port = some s := by
  induction l with
  | nil => simp [insertSess, lookupSess]
  | cons kv rest ih =>
    obtain ⟨k, t⟩ := kv
    by_cases hk : k = port
    · simp [insertSess, lookupSess, hk]
    · simp [insertSess, lookupSess, hk, ih]

/-- C8: two immediately successive startOrGetSession calls for the same
target port return the same session (and hence the same proxy port); the
second call does not change the registry. -/

theorem C8_memoized (m : MgrState) (port : Nat) :
    (getOrCreate (getOrCreate m port).2 port).1 = (getOrCreate m port).1 ∧
    (getOrCreate (getOrCreate m port).2 port).2 = (getOrCreate m port).2 ∧
    (getOrCreate (getOrCreate m port).2 port).1.proxyResult =
      (getOrCreate m port).1.proxyResult := by
  cases hl : lookupSess m.sessions port with
  | some s =>
    have h1 : getOrCreate m port = (s, m) := by simp [getOrCreate, hl]
    rw [h1]
    simp [getOrCreate, hl]
  | none =>
    have h1 : getOrCreate m port =
        (newSession port (suggestedFor m),
         ⟨insertSess m.sessions port (newSession port (suggestedFor m))⟩) := by
      simp [getOrCreate, hl]
    rw [h1]
    simp [getOrCreate, lookupSess_insertSess]

theorem maxList_spec : ∀ (ps : List Nat), ps ≠ [] →
    maxList ps ∈ ps ∧ ∀ q ∈ ps, q ≤ maxList ps
  | [], h => absurd rfl h
  | [a], _ => by
    constructor
    · show max a 0 ∈ [a]
      simp
    · intro q hq
      have hq' : q = a := by simpa using hq
      subst hq'
      show q ≤ max q 0
      exact Nat.le_max_left q 0
  | a :: b :: ps, _ => by
    obtain ⟨hmem, hle⟩ := maxList_spec (b :: ps) (by simp)
    have hml : maxList (a :: b :: ps) = max a (maxList (b :: ps)) := rfl
    constructor
    · rw [hml]
      rcases Nat.le_total a (maxList (b :: ps)) with hab | hba
      · rw [Nat.max_eq_right hab]
        exact List.mem_cons_of_mem a hmem
      · rw [Nat.max_eq_left hba]
        exact List.mem_cons_self a _
    · intro q hq
      rw [hml]
      rcases List.mem_cons.mp hq with rfl | hq2
      · exact Nat.le_max_left _ _
      · exact Nat.le_trans (hle q hq2) (Nat.le_max_right _ _)

/-- C9: a newly created session is suggested the backend port
`max(known backend ports) + 1`, or the constructor default 8097 when no
session has a truthy backend port. -/

theorem C9_suggestedPort (m : MgrState) (port : Nat)
    (h : lookupSess m.sessions port = none) :
    (knownDevtoolsPorts m = [] →
      (getOrCreate m port).1.suggestedDevtoolsPort = 8097) ∧
    (knownDevtoolsPorts m ≠ [] →
      ∃ p, p ∈ knownDevtoolsPorts m ∧
        (getOrCreate m port).1.suggestedDevtoolsPort = p + 1 ∧
        ∀ q ∈ knownDevtoolsPorts m, q ≤ p) := by
  have hg : (getOrCreate m port).1 = newSession port (suggestedFor m) := by
    simp [getOrCreate, h]
  constructor
  · intro hempty
    rw [hg]
    simp [newSession, suggestedFor, hempty]
  · intro hne
    obtain ⟨hmem, hle⟩ := maxList_spec _ hne
    refine ⟨maxList (knownDevtoolsPorts m), hmem, ?_, hle⟩
    rw [hg]
    simp [newSession, suggestedFor, hne]

/-- Witness for C9: with one session whose backend runs on 8097, a new
session for target 3001 is suggested 8098. -/

theorem C9_witness :
    lookupSess c9mgr.sessions 3001 = none ∧
    ((knownDevtoolsPorts c9mgr = [] →
      (getOrCreate c9mgr 3001).1.suggestedDevtoolsPort = 8097) ∧
     (knownDevtoolsPorts c9mgr ≠ [] →
      ∃ p, p ∈ knownDevtoolsPorts c9mgr ∧
        (getOrCreate c9mgr 3001).1.suggestedDevtoolsPort = p + 1 ∧
        ∀ q ∈ knownDevtoolsPorts c9mgr, q ≤ p)) :=
  ⟨by decide, C9_suggestedPort c9mgr 3001 (by decide)⟩

/-! ## Session state machine -/

/-- C10: the backend disconnect callback is a no-op (state unchanged, no
event fired, no proxy cleanup) unless the status at callback time is
DevtoolsConnected, in which case the proxy is cleaned up and the status
moves back to ServerConnected. -/

theorem C10_disconnectGuard (st : SessState) (o : Option Nat) :
    (st.status ≠ DevtoolsStatus.DevtoolsConnected →
      onDidDisconnectM st o = (st, ([], false))) ∧
    (st.status = DevtoolsStatus.DevtoolsConnected →
      (onDidDisconnectM st o).1.status = DevtoolsStatus.ServerConnected ∧
      (onDidDisconnectM st o).2.2 = true) := by
  constructor
  · intro h
    simp [onDidDisconnectM, h]
  · intro h
    cases o <;> simp [onDidDisconnectM, updateStatusM, h]

/-- Witness for C10: a disconnect in Idle state leaves everything alone. -/

theorem C10_witness :
    onDidDisconnectM ⟨DevtoolsStatus.Idle, some 8000⟩ (some 9000) =
      (⟨DevtoolsStatus.Idle, some 8000⟩, ([], false)) :=
  (C10_disconnectGuard ⟨DevtoolsStatus.Idle, some 8000⟩ (some 9000)).1 (by decide)

/-- C2 counterexample: after reaching ServerConnected with a proxy and
then receiving an Error status callback, the session's proxyPort is still
defined while the status is Error, so "proxyPort is defined iff status is
ServerConnected or DevtoolsConnected" fails. -/

theorem C2_counterexample :
    ¬ (((runS c2trace).proxyResult).isSome = true ↔
       ((runS c2trace).status = DevtoolsStatus.ServerConnected ∨
        (runS c2trace).status = DevtoolsStatus.DevtoolsConnected)) := by
  decide

/-- C2 (amended): proxyPort starts undefined and becomes defined exactly
by a status update that completes a successful proxy start (a
ServerConnected callback, or a disconnect callback arriving in
DevtoolsConnected); no step ever clears it, so it can stay defined in
Error. -/

theorem C2_proxyPortCharacterization :
    (runS []).proxyResult = none ∧
    ∀ (st : SessState) (e : SEvent),
      ((stepS st e).proxyResult.isSome = true ↔
        st.proxyResult.isSome = true ∨ setsProxy st e) := by
  refine ⟨rfl, ?_⟩
  intro st e
  cases e with
  | upd s o =>
    by_cases hs : s = DevtoolsStatus.ServerConnected
    · subst hs
      cases o with
      | some p => simp [stepS, updateStatusM, setsProxy]
      | none => simp [stepS, updateStatusM, setsProxy]
    · cases o with
      | some p => simp [stepS, updateStatusM, setsProxy, hs]
      | none => simp [stepS, updateStatusM, setsProxy, hs]
  | disc o =>
    by_cases hd : st.status = DevtoolsStatus.DevtoolsConnected
    · cases o with
      | some p => simp [stepS, onDidDisconnectM, updateStatusM, setsProxy, hd]
      | none => simp [stepS, onDidDisconnectM, updateStatusM, setsProxy, hd]
    · cases o with
      | some p => simp [stepS, onDidDisconnectM, setsProxy, hd]
      | none => simp [stepS, onDidDisconnectM, setsProxy, hd]

/-! ## Wait-for-ready listener -/

/-- C3 counterexample: an Error status fire on a fresh listener rejects
the promise but leaves the subscription undisposed, so "the listener is
disposed once it fires, in both the resolution and the rejection case"
fails on the rejection path. -/

theorem C3_counterexample :
    (fireStatus none DevtoolsStatus.Error listenerInit).settled =
      some (Except.error "Error while starting a new session") ∧
    (fireStatus none DevtoolsStatus.Error listenerInit).disposed = false := by
  constructor <;> rfl

/-- C3 (amended): on the first fire of ServerConnected with a truthy
proxyPort the promise resolves with that port and the listener disposes
itself; on a first fire of Error the promise is rejected but the listener
is not disposed. -/

theorem C3_listenerBehaviour (pp : Option Nat) (L : ListenerSim)
    (hd : L.disposed = false) (hs : L.settled = none) :
    (truthyN pp = true →
      fireStatus pp DevtoolsStatus.ServerConnected L =
        ⟨some (Except.ok (pp.getD 0)), true⟩) ∧
    fireStatus pp DevtoolsStatus.Error L =
      ⟨some (Except.error "Error while starting a new session"), false⟩ := by
  constructor
  · intro ht
    simp [fireStatus, hd, statusListenerBody, ht, settleOk, hs]
  · simp [fireStatus, hd, statusListenerBody, settleErr, hs]

/-- Witness for C3 at a fresh listener and proxy port 8000. -/

theorem C3_witness :
    listenerInit.disposed = false ∧ listenerInit.settled = none ∧
    ((truthyN (some 8000) = true →
      fireStatus (some 8000) DevtoolsStatus.ServerConnected listenerInit =
        ⟨some (Except.ok 8000), true⟩) ∧
     fireStatus (some 8000) DevtoolsStatus.Error listenerInit =
       ⟨some (Except.error "Error while starting a new session"), false⟩) :=
  ⟨rfl, rfl, C3_listenerBehaviour (some 8000) listenerInit rfl rfl⟩

/-! ## CSP rewriting lemmas -/

theorem tryMatchDir_some {lit s t : List Char}
    (h : tryMatchDir lit s = some t) :
    ∃ a b, s = a ++ lit ++ b ∧ headNonSemi b = true ∧
      t = a ++ lit ++ takeNonSemi b ++ relaxTokens ++ dropNonSemi b := by
  induction s generalizing t with
  | nil => simp [tryMatchDir] at h
  | cons c rest ih =>
    rw [tryMatchDir] at h
    by_cases hc : (hasPrefixL lit (c :: rest) &&
        headNonSemi ((c :: rest).drop lit.length)) = true
    · rw [if_pos hc] at h
      injection h with ht
      have hc' : hasPrefixL lit (c :: rest) = true ∧
          headNonSemi ((c :: rest).drop lit.length) = true := by simpa using hc
      obtain ⟨h1, h2⟩ := hc'
      refine ⟨[], (c :: rest).drop lit.length, ?_, h2, ?_⟩
      · simpa using eq_of_hasPrefixL h1
      · rw [← ht]
        simp
    · rw [if_neg hc] at h
      cases htm : tryMatchDir lit rest with
      | none => rw [htm] at h; cases h
      | some t0 =>
        rw [htm] at h
        injection h with ht
        obtain ⟨a, b, hs, hh, ht0⟩ := ih htm
        refine ⟨c :: a, b, by simp [hs], hh, ?_⟩
        rw [← ht, ht0]
        simp

theorem tryMatchDir_hasSub {lit s t : List Char}
    (h : tryMatchDir lit s = some t) : hasSub lit s = true := by
  obtain ⟨a, b, hs, _, _⟩ := tryMatchDir_some h
  exact (hasSub_iff _ _).mpr ⟨a, b, hs⟩

theorem tryMatchDir_insert_shape {lit t t' : List Char}
    (h : tryMatchDir lit t = some t') :
    ∃ A B, t = A ++ B ∧ t' = A ++ relaxTokens ++ B := by
  obtain ⟨a, b, hs, hh, ht⟩ := tryMatchDir_some h
  refine ⟨a ++ lit ++ takeNonSemi b, dropNonSemi b, ?_, ?_⟩
  · rw [hs]
    have hb := takeNonSemi_append_dropNonSemi b
    calc a ++ lit ++ b
        = a ++ lit ++ (takeNonSemi b ++ dropNonSemi b) := by rw [hb]
      _ = a ++ lit ++ takeNonSemi b ++ dropNonSemi b := by
          simp [List.append_assoc]
  · rw [ht]

theorem spc_not_mem_faLit : spc ∉ faLit := by decide

theorem qc_not_mem_faLit : qc ∉ faLit := by decide

theorem semi_not_mem_faLit : (';' : Char) ∉ faLit := by decide

theorem faLit_not_infix_relaxTokens : hasSub faLit relaxTokens = false := by
  decide

theorem relaxTokens_concat :
    relaxTokens =
      ([spc] ++ tokenInline ++ [spc] ++ [qc] ++ "unsafe-eval".data) ++ [qc] := by
  decide

theorem concat_last_eq {x1 x2 : List Char} {a b : Char}
    (h : x1 ++ [a] = x2 ++ [b]) : a = b := by
  have h2 := congrArg List.reverse h
  simp only [List.reverse_append, List.reverse_cons, List.reverse_nil,
    List.nil_append, List.cons_append] at h2
  injection h2

/-- Inserting the relax tokens between two pieces cannot create a
`frame-ancestors` occurrence: a straddling occurrence would have to
contain the leading space or the trailing apostrophe of the insertion,
neither of which occurs in `frame-ancestors`. -/

theorem faLit_not_infix_insert {A B : List Char}
    (h : ¬ InfixP faLit (A ++ B)) :
    ¬ InfixP faLit (A ++ relaxTokens ++ B) := by
  intro hin
  have hin' : InfixP faLit (A ++ (relaxTokens ++ B)) := by
    rwa [← List.append_assoc]
  rcases InfixP_append_split hin' with hA | hRB |
    ⟨w, u, hfa, hw, hu, ⟨x, hx⟩, ⟨y, hy⟩⟩
  · exact h (InfixP_append_left B hA)
  · rcases InfixP_append_split hRB with hR | hB |
      ⟨w, u, hfa, hw, hu, ⟨x, hx⟩, ⟨y, hy⟩⟩
    · have := (hasSub_iff faLit relaxTokens).mpr hR
      rw [faLit_not_infix_relaxTokens] at this
      exact absurd this (by simp)
    · exact h (InfixP_append_right A hB)
    · -- w is a non-empty suffix of relaxTokens: its last char is qc
      rcases List.eq_nil_or_concat' w with rfl | ⟨w0, cl, rfl⟩
      · exact hw rfl
      · have h1 : (x ++ w0) ++ [cl] =
            ([spc] ++ tokenInline ++ [spc] ++ [qc] ++ "unsafe-eval".data) ++
              [qc] := by
          rw [List.append_assoc, ← hx]
          exact relaxTokens_concat
        have hq : cl = qc := concat_last_eq h1
        have hmem : cl ∈ faLit := by
          rw [hfa]
          simp
        rw [hq] at hmem
        exact absurd hmem qc_not_mem_faLit
  · -- u is a non-empty prefix of relaxTokens ++ B: its head is spc
    rcases u with _ | ⟨u0, us⟩
    · exact hu rfl
    · have hy' : spc :: ((tokenInline ++ [spc] ++ tokenEval) ++ B) =
          u0 :: (us ++ y) := by
        simpa [relaxTokens] using hy
      injection hy' with h1 _
      have hmem : u0 ∈ faLit := by
        rw [hfa]
        simp
      rw [← h1] at hmem
      exact absurd hmem spc_not_mem_faLit

theorem appendRelax_preserves {t : List Char} (h : ¬ InfixP faLit t) :
    ¬ InfixP faLit (appendRelax t) := by
  unfold appendRelax
  by_cases hss : hasSub ssLit t = true
  · rw [if_pos hss]
    cases htm : tryMatchDir ssLit t with
    | none => exact h
    | some t' =>
      obtain ⟨A, B, hAB, hAB'⟩ := tryMatchDir_insert_shape htm
      rw [hAB']
      exact faLit_not_infix_insert (hAB ▸ h)
  · rw [if_neg hss]
    cases htm : tryMatchDir dsLit t with
    | none => exact h
    | some t' =>
      obtain ⟨A, B, hAB, hAB'⟩ := tryMatchDir_insert_shape htm
      rw [hAB']
      exact faLit_not_infix_insert (hAB ▸ h)

theorem infixP_of_countSub_pos {pat s : List Char}
    (h : countSub pat s ≠ 0) : InfixP pat s := by
  induction s with
  | nil => simp [countSub] at h
  | cons c rest ih =>
    by_cases hp : hasPrefixL pat (c :: rest) = true
    · obtain ⟨t, ht⟩ := (hasPrefixL_iff _ _).mp hp
      exact ⟨[], t, by simpa using ht⟩
    · have h2 : countSub pat rest ≠ 0 := by
        intro h0
        apply h
        simp only [countSub, if_neg hp, h0]
      obtain ⟨x, y, hxy⟩ := ih h2
      exact ⟨c :: x, y, by simp [hxy]⟩

theorem goodOccs_spec {pat : List Char} (hpat : pat ≠ []) :
    ∀ (a : List Char) (prev : Option Char) (b : List Char),
      goodOccs pat prev (a ++ pat ++ b) = true →
      (a = [] ∧ (prev = none ∨ prev = some ';' ∨ prev = some spc)) ∨
      (∃ a0 c, a = a0 ++ [c] ∧ (c = ';' ∨ c = spc))
  | [], prev, b, h => by
    left
    refine ⟨rfl, ?_⟩
    cases pat with
    | nil => exact absurd rfl hpat
    | cons p ps =>
      have hp : hasPrefixL (p :: ps) (p :: (ps ++ b)) = true :=
        hasPrefixL_self_append (p :: ps) b
      rw [show ([] : List Char) ++ (p :: ps) ++ b = p :: (ps ++ b) from
        by simp] at h
      rw [goodOccs, if_pos hp] at h
      have hl : prevOK prev = true ∧
          goodOccs (p :: ps) (some p) (ps ++ b) = true := by simpa using h
      cases prev with
      | none => exact Or.inl rfl
      | some pc =>
        by_cases h1 : pc = ';'
        · exact Or.inr (Or.inl (by rw [h1]))
        · by_cases h2 : pc = spc
          · exact Or.inr (Or.inr (by rw [h2]))
          · exfalso
            have := hl.1
            simp [prevOK, h1, h2] at this
  | c :: a, prev, b, h => by
    have hsplit : goodOccs pat (some c) (a ++ pat ++ b) = true := by
      rw [show (c :: a) ++ pat ++ b = c :: (a ++ pat ++ b) from by simp] at h
      rw [goodOccs] at h
      have hl : (if hasPrefixL pat (c :: (a ++ pat ++ b)) then prevOK prev
          else true) = true ∧
          goodOccs pat (some c) (a ++ pat ++ b) = true := by simpa using h
      exact hl.2
    rcases goodOccs_spec hpat a (some c) b hsplit with
      ⟨ha, hprev⟩ | ⟨a0, c0, ha, hc⟩
    · subst ha
      rcases hprev with h1 | h1 | h1
      · exact absurd h1 (by simp)
      · right
        refine ⟨[], c, by simp, Or.inl ?_⟩
        injection h1
      · right
        refine ⟨[], c, by simp, Or.inr ?_⟩
        injection h1
    · right
      exact ⟨c :: a0, c0, by simp [ha], hc⟩

theorem C5_counterexample :
    hasDirective faLit c5cx = true ∧
    hasDirective faLit (rewriteCsp c5cx) = true := by decide

/-- C5 (amended): if the header contains exactly one occurrence of
`frame-ancestors` and it sits at the start or right after a semicolon or
space (as in any well-formed CSP header), the rewritten header contains
no occurrence of `frame-ancestors` at all, hence no such directive. -/

theorem C5_frameAncestorsRemoved (s : List Char)
    (h1 : countSub faLit s = 1)
    (h2 : goodOccs faLit none s = true) :
    hasSub faLit (rewriteCsp s) = false ∧
    hasDirective faLit (rewriteCsp s) = false := by
  have hfane : faLit ≠ [] := by decide
  have hinf : InfixP faLit s := infixP_of_countSub_pos (by omega)
  obtain ⟨ab, hsf⟩ : ∃ ab, splitFirst faLit s = some ab := by
    cases hsf : splitFirst faLit s with
    | none => exact absurd hinf (splitFirst_none hsf)
    | some ab => exact ⟨ab, rfl⟩
  obtain ⟨a, b⟩ := ab
  have hs : s = a ++ faLit ++ b := splitFirst_eq hsf
  have hmin : ¬ InfixP faLit a := splitFirst_minimal hfane hsf
  have hrfa : replaceFA s = a ++ dropDirectiveTail b := by
    unfold replaceFA
    rw [hsf]
  have hnofa : ¬ InfixP faLit (a ++ dropDirectiveTail b) := by
    intro hin
    rcases InfixP_append_split hin with hA | hD |
      ⟨w, u, hfa, hw, hu, ⟨x, hx⟩, ⟨y, hy⟩⟩
    · exact hmin hA
    · obtain ⟨pre, hpre⟩ := dropDirectiveTail_suffix b
      have hinb : InfixP faLit b := by
        obtain ⟨x, y, hxy⟩ := hD
        exact ⟨pre ++ x, y, by rw [hpre, hxy]; simp [List.append_assoc]⟩
      have hcb : 1 ≤ countSub faLit b := countSub_ge_of_mem hfane hinb
      have hcm : 1 + countSub faLit b ≤ countSub faLit (a ++ faLit ++ b) :=
        countSub_middle hfane a b
      rw [← hs] at hcm
      omega
    · rcases goodOccs_spec hfane a none b (by rw [← hs]; exact h2) with
        ⟨ha0, _⟩ | ⟨a0, c0, ha0, hc0⟩
      · subst ha0
        rcases List.eq_nil_or_concat' w with rfl | ⟨w0, cl, rfl⟩
        · exact hw rfl
        · simp at hx
      · rcases List.eq_nil_or_concat' w with rfl | ⟨w0, cl, rfl⟩
        · exact hw rfl
        · have heq : (x ++ w0) ++ [cl] = a0 ++ [c0] := by
            rw [List.append_assoc, ← hx, ha0]
          have hcl : cl = c0 := concat_last_eq heq
          have hclmem : cl ∈ faLit := by
            rw [hfa]; simp
          rw [hcl] at hclmem
          rcases hc0 with rfl | rfl
          · exact absurd hclmem semi_not_mem_faLit
          · exact absurd hclmem spc_not_mem_faLit
  have hfinal : ¬ InfixP faLit (rewriteCsp s) := by
    unfold rewriteCsp
    rw [hrfa]
    exact appendRelax_preserves hnofa
  constructor
  · rw [Bool.eq_false_iff]
    intro hT
    exact hfinal ((hasSub_iff _ _).mp hT)
  · rw [Bool.eq_false_iff]
    intro hT
    exact hfinal ((hasSub_iff _ _).mp (hasDirective_imp_hasSub hT))

theorem C5_witness :
    countSub faLit c5wit = 1 ∧ goodOccs faLit none c5wit = true ∧
    (hasSub faLit (rewriteCsp c5wit) = false ∧
     hasDirective faLit (rewriteCsp c5wit) = false) :=
  ⟨by decide, by decide, C5_frameAncestorsRemoved c5wit (by decide) (by decide)⟩

/-- C6 (amended): whenever the `script-src[^;]+` pattern matches the
header after frame-ancestors removal, the rewrite appends the two quoted
tokens directly after the matched script-src value with no semicolon in
between (so they land inside that directive); when no `script-src`
substring exists and `default-src[^;]+` matches, they are appended to the
default-src value instead. -/

theorem C6_scriptSrcTokens (s : List Char) :
    ((tryMatchDir ssLit (replaceFA s)).isSome = true →
      ∃ a r b, rewriteCsp s = a ++ ssLit ++ r ++ relaxTokens ++ b ∧
        (';' : Char) ∉ r ∧ (';' : Char) ∉ relaxTokens) ∧
    (hasSub ssLit (replaceFA s) = false →
      (tryMatchDir dsLit (replaceFA s)).isSome = true →
      ∃ a r b, rewriteCsp s = a ++ dsLit ++ r ++ relaxTokens ++ b ∧
        (';' : Char) ∉ r ∧ (';' : Char) ∉ relaxTokens) := by
  constructor
  · intro hsome
    obtain ⟨t, ht⟩ : ∃ t, tryMatchDir ssLit (replaceFA s) = some t := by
      cases htm : tryMatchDir ssLit (replaceFA s) with
      | none => rw [htm] at hsome; cases hsome
      | some t => exact ⟨t, rfl⟩
    have hss : hasSub ssLit (replaceFA s) = true := tryMatchDir_hasSub ht
    obtain ⟨a, b, hsplit, hh, hshape⟩ := tryMatchDir_some ht
    have hrw : rewriteCsp s = t := by
      unfold rewriteCsp appendRelax
      rw [if_pos hss, ht]
    refine ⟨a, takeNonSemi b, dropNonSemi b, ?_, not_semi_mem_takeNonSemi b,
      by decide⟩
    rw [hrw, hshape]
  · intro hnss hsome
    obtain ⟨t, ht⟩ : ∃ t, tryMatchDir dsLit (replaceFA s) = some t := by
      cases htm : tryMatchDir dsLit (replaceFA s) with
      | none => rw [htm] at hsome; cases hsome
      | some t => exact ⟨t, rfl⟩
    obtain ⟨a, b, hsplit, hh, hshape⟩ := tryMatchDir_some ht
    have hrw : rewriteCsp s = t := by
      unfold rewriteCsp appendRelax
      rw [if_neg (by rw [hnss]; simp), ht]
    refine ⟨a, takeNonSemi b, dropNonSemi b, ?_, not_semi_mem_takeNonSemi b,
      by decide⟩
    rw [hrw, hshape]

theorem C6_counterexample :
    hasDirective ssLit c6cx = true ∧
    hasSub tokenInline (rewriteCsp c6cx) = false ∧
    hasSub tokenEval (rewriteCsp c6cx) = false := by decide

theorem C6_witness :
    (tryMatchDir ssLit (replaceFA c6wit)).isSome = true ∧
    (∃ a r b, rewriteCsp c6wit = a ++ ssLit ++ r ++ relaxTokens ++ b ∧
      (';' : Char) ∉ r ∧ (';' : Char) ∉ relaxTokens) :=
  ⟨by decide, (C6_scriptSrcTokens c6wit).1 (by decide)⟩
